import Mathlib

/-!
Verification of the Soma SDK durable interaction-pattern runtime.

The development shallowly embeds the core of the repository:

* `SomaMcpClient` / `mcpInvoke` — the durable MCP client wrapper
  (`src/py/packages/sdk/trysoma_sdk/mcp.py`): every wrapped method reads the
  per-client `_request_index`, increments it, and issues a durable run with
  key `"mcp-{clientName}-{operation}-index-{index}"`.
* `chat` / `workflow` — the two pattern engines
  (`src/py/packages/sdk/trysoma_sdk/patterns.py`), embedded as fuel-indexed
  executable loops over an explicit `RunState` carrying the durable journal,
  the persistent `"new_input_promise"` key/value slot, the awakeable counter
  and an event trace.

The durable-execution substrate (the `restate` `ObjectContext`) is not part
of the repository; its `run` / `awakeable` / `set` operations are modelled
from the specification of the durable-call primitive: `run(key, fn)` executes
`fn` at most once per distinct key within a run and otherwise returns the
previously recorded result.
-/

namespace Soma

/-! ## Durable MCP client wrapper (`mcp.py`) -/

/-- The mutable state of `SomaMcpClient.__init__`: the client name used in
durability keys and the per-client `_request_index` counter starting at 0. -/
structure SomaMcpClient where
  clientName : String
  requestIndex : Nat
deriving Repr, DecidableEq

/-- The durability key built by every wrapped MCP method:
`f"mcp-{self._client_name}-{operation}-index-{index}"`. -/
def mcpStepKey (clientName : String) (op : String) (index : Nat) : String :=
  "mcp-" ++ clientName ++ "-" ++ op ++ "-index-" ++ toString index

/-- One call issued on the wrapped client: the operation name used in the key
(for example `"listTools"` or `"callTool"`) and whether the underlying client
operation raises when executed. -/
structure McpCall where
  op : String
  fails : Bool
deriving Repr, DecidableEq

/-- The observable record of one wrapped call: the durable step key it issued,
the index value it consumed, and whether the durable run succeeded. -/
structure McpCallRecord where
  key : String
  index : Nat
  ok : Bool
deriving Repr, DecidableEq

/-- One wrapped MCP method invocation, as in `SomaMcpClient.call_tool`:
`index = self._request_index; self._request_index += 1` happens before the
durable run is issued, so the index is consumed even if the run raises; the
exception of a failing underlying operation propagates unwrapped. -/
def mcpInvoke (c : SomaMcpClient) (call : McpCall) : McpCallRecord × SomaMcpClient :=
  let index := c.requestIndex
  let c2 : SomaMcpClient := { c with requestIndex := c.requestIndex + 1 }
  ({ key := mcpStepKey c.clientName call.op index, index := index, ok := !call.fails }, c2)

/-- A sequence of calls issued on one wrapped client (the caller observes each
record; a failing call still lets the caller continue with the same client). -/
def mcpInvokeAll (c : SomaMcpClient) : List McpCall → List McpCallRecord × SomaMcpClient
  | [] => ([], c)
  | call :: rest =>
    let r := mcpInvoke c call
    let rs := mcpInvokeAll r.2 rest
    (r.1 :: rs.1, rs.2)

/-- The keys the wrapper is specified to produce for a call sequence starting
at a given index: operation name of each call with consecutive indices. -/
def mcpExpectedKeys (name : String) : Nat → List McpCall → List String
  | _, [] => []
  | i, call :: rest => mcpStepKey name call.op i :: mcpExpectedKeys name (i + 1) rest

theorem mcpInvokeAll_spec (calls : List McpCall) : ∀ c : SomaMcpClient,
    (mcpInvokeAll c calls).1.map McpCallRecord.key
        = mcpExpectedKeys c.clientName c.requestIndex calls
    ∧ (mcpInvokeAll c calls).1.map McpCallRecord.index
        = List.range' c.requestIndex calls.length
    ∧ (mcpInvokeAll c calls).2
        = { clientName := c.clientName, requestIndex := c.requestIndex + calls.length } := by
  induction calls with
  | nil => intro c; simp [mcpInvokeAll, mcpExpectedKeys]
  | cons call rest ih =>
    intro c
    obtain ⟨h1, h2, h3⟩ := ih { c with requestIndex := c.requestIndex + 1 }
    refine ⟨?_, ?_, ?_⟩
    · simp [mcpInvokeAll, mcpInvoke, mcpExpectedKeys, h1]
    · simp [mcpInvokeAll, mcpInvoke, h2, List.range'_succ]
    · simp only [mcpInvokeAll, mcpInvoke, h3, List.length_cons]
      congr 1
      omega

/-- C5: every call on one wrapped MCP client becomes a durable run with key
`"mcp-{clientName}-{operationName}-index-{n}"` where `n` starts at 0 and
increases by exactly one on every call regardless of which operation is
invoked; in particular `listTools()`, `callTool("x")`, `listTools()` produce
three distinct keys ending in `-index-0`, `-index-1`, `-index-2`. -/
theorem mcp_call_keys_strictly_indexed (name : String) (calls : List McpCall) :
    (mcpInvokeAll ⟨name, 0⟩ calls).1.map McpCallRecord.key = mcpExpectedKeys name 0 calls
    ∧ (mcpInvokeAll ⟨name, 0⟩ calls).1.map McpCallRecord.index = List.range' 0 calls.length
    ∧ (mcpInvokeAll ⟨"c", 0⟩
          [⟨"listTools", false⟩, ⟨"callTool", false⟩, ⟨"listTools", false⟩]).1.map
          McpCallRecord.key
        = [mcpStepKey "c" "listTools" 0, mcpStepKey "c" "callTool" 1,
            mcpStepKey "c" "listTools" 2]
    ∧ mcpStepKey "c" "listTools" 0 ≠ mcpStepKey "c" "callTool" 1
    ∧ mcpStepKey "c" "listTools" 0 ≠ mcpStepKey "c" "listTools" 2
    ∧ mcpStepKey "c" "callTool" 1 ≠ mcpStepKey "c" "listTools" 2
    ∧ ("-index-0").data <:+ (mcpStepKey "c" "listTools" 0).data
    ∧ ("-index-1").data <:+ (mcpStepKey "c" "callTool" 1).data
    ∧ ("-index-2").data <:+ (mcpStepKey "c" "listTools" 2).data := by
  obtain ⟨h1, h2, _⟩ := mcpInvokeAll_spec calls ⟨name, 0⟩
  exact ⟨h1, h2, by decide, by decide, by decide, by decide, by decide, by decide, by decide⟩

/-- C10: the per-client request index is read and incremented before the
durable run is made, so a call whose underlying operation raises still
consumes its index; successive calls use indices greater by exactly one and
no index value is ever reused across calls, regardless of failures. -/
theorem mcp_index_consumed_on_failure (name : String) (start : Nat) (calls : List McpCall)
    (c : SomaMcpClient) (call call2 : McpCall) :
    (mcpInvokeAll ⟨name, start⟩ calls).1.map McpCallRecord.index
        = List.range' start calls.length
    ∧ ((mcpInvokeAll ⟨name, start⟩ calls).1.map McpCallRecord.index).Nodup
    ∧ (mcpInvoke c call).1.index = c.requestIndex
    ∧ (mcpInvoke c call).1.ok = !call.fails
    ∧ (mcpInvoke c call).2.requestIndex = c.requestIndex + 1
    ∧ (mcpInvoke (mcpInvoke c call).2 call2).1.index = c.requestIndex + 1 := by
  obtain ⟨_, h2, _⟩ := mcpInvokeAll_spec calls ⟨name, start⟩
  refine ⟨h2, ?_, rfl, rfl, rfl, rfl⟩
  rw [h2]
  exact List.nodup_range' start calls.length 1 Nat.one_pos

/-! ## Pattern engines (`patterns.py`)

Messages and timeline items are represented by `Nat` identifiers; histories
are lists of them.  A run's durable journal stores `DVal` values. -/

/-- A value recorded in the durable journal: the result of a
`fetch_history` step (a history page) or of a `send_message` step. -/
inductive DVal where
  | hist (items : List Nat)
  | msgResp (n : Nat)
deriving Repr, DecidableEq

/-- The history page carried by a journal value (`messages.items`). -/
def DVal.asHist : DVal → List Nat
  | DVal.hist items => items
  | DVal.msgResp _ => []

/-- Observable events of one run, newest first in the recorded trace. -/
inductive Event where
  | awakeableCreated (id : Nat)
  | slotSet (id : Nat)
  | awaited (id : Nat)
  | runCall (key : String) (executed : Bool)
  | handlerStart (turn : Nat) (history : List Nat)
  | handlerCompleted (turn : Nat)
  | handlerCancelled (turn : Nat)
deriving Repr, DecidableEq

/-- The per-run state owned by the durable context: the awakeable id counter,
the persistent `"new_input_promise"` key/value slot written by `ctx.set`, the
durable journal of recorded steps, the event trace (newest first), and the
`goal_output` / `achieved` variables closed over by `on_goal_achieved` in the
chat pattern.  `goalOutput` mirrors the Python `goal_output: OutputT | None`
variable: `none` is Python `None`, both as initial value and as an output the
handler may pass. -/
structure RunState (V : Type) where
  nextAwk : Nat := 0
  slot : Option Nat := none
  journal : List (String × DVal) := []
  trace : List Event := []
  goalOutput : Option V := none
  achieved : Bool := false

/-- Modelled from the spec: the durable-call primitive `run(key, fn)` of the
external durable-execution substrate (`ctx.run` / `ctx.run_typed`, not part
of this repository) executes `fn` at most once per distinct key within a
run's lifetime; on a repeated key it returns the previously recorded result
without re-invoking `fn`.  An exception of `fn` would propagate verbatim. -/
def durableRun (key : String) (fn : Unit → DVal) (s : RunState V) : DVal × RunState V :=
  match s.journal.find? (fun kv => kv.fst == key) with
  | some kv => (kv.snd, { s with trace := Event.runCall key false :: s.trace })
  | none =>
    let v := fn ()
    (v, { s with journal := (key, v) :: s.journal,
                 trace := Event.runCall key true :: s.trace })

/-- Modelled from the spec: `ctx.awakeable()` allocates a fresh external
completion handle and returns its id (ids are modelled as consecutive
naturals) together with a future resolved later by an external actor. -/
def awakeable (s : RunState V) : Nat × RunState V :=
  (s.nextAwk, { s with nextAwk := s.nextAwk + 1,
                       trace := Event.awakeableCreated s.nextAwk :: s.trace })

/-- Modelled from the spec: `ctx.set("new_input_promise", id)` overwrites the
persistent slot with the given awakeable id. -/
def setSlot (id : Nat) (s : RunState V) : RunState V :=
  { s with slot := some id, trace := Event.slotSet id :: s.trace }

/-- Modelled from the spec: `await promise` blocks until the external actor
resolves the awakeable; the engines ignore the payload, so resolution is
recorded as an event only. -/
def awaitPromise (id : Nat) (s : RunState V) : RunState V :=
  { s with trace := Event.awaited id :: s.trace }

/-- One step a handler performs during one invocation: the `send_message`
closure (a durable `"send_message"` run), the `on_goal_achieved` callback
(with a possibly-`None` output, mirroring the untyped Python callback), or
raising an exception, which aborts the rest of the invocation. -/
inductive HAction (V : Type) where
  | sendMessage (m : Nat)
  | goalAchieved (out : Option V)
  | raiseExc (e : Nat)
deriving DecidableEq

/-- The `send_message` closure built by both engines: a durable run with the
constant key `"send_message"` posting the message. -/
def sendMessageCall (m : Nat) (s : RunState V) : RunState V :=
  (durableRun "send_message" (fun _ => DVal.msgResp m) s).2

/-- The `on_goal_achieved` callback of the chat pattern: records the output
and marks the pattern achieved (`nonlocal goal_output, achieved`). -/
def onGoalAchieved (out : Option V) (s : RunState V) : RunState V :=
  { s with goalOutput := out, achieved := true }

/-- Execution of one handler invocation as the sequence of its steps; returns
the exception it raised, if any, together with the updated state. -/
def runHandlerActions : List (HAction V) → RunState V → Option Nat × RunState V
  | [], s => (none, s)
  | HAction.sendMessage m :: rest, s => runHandlerActions rest (sendMessageCall m s)
  | HAction.goalAchieved out :: rest, s => runHandlerActions rest (onGoalAchieved out s)
  | HAction.raiseExc e :: _, s => (some e, s)

/-- The exception a handler invocation with these steps raises, if any. -/
def actionsRaise : List (HAction V) → Option Nat
  | [] => none
  | HAction.raiseExc e :: _ => some e
  | _ :: rest => actionsRaise rest

/-- The outputs passed to `on_goal_achieved` by an invocation, in order
(`none` is Python `None`). -/
def goalsOf : List (HAction V) → List (Option V)
  | [] => []
  | HAction.goalAchieved out :: rest => out :: goalsOf rest
  | _ :: rest => goalsOf rest

/-- The number of `send_message` calls an invocation performs. -/
def countSends : List (HAction V) → Nat
  | [] => 0
  | HAction.sendMessage _ :: rest => countSends rest + 1
  | _ :: rest => countSends rest

/-- The environment of a chat run: the history page `soma.task_history`
returns when actually fetched at the start of loop iteration `t`, and the
handler's behaviour on its invocation at iteration `t` with the history page
it is given. -/
structure ChatEnv (V : Type) where
  histAt : Nat → List Nat
  handler : Nat → List Nat → List (HAction V)

/-- The result of the wrapped chat handler: the goal output, a propagated
handler exception, the fatal `RuntimeError("Goal not achieved")`, or fuel
exhaustion of the bounded model of the unbounded `while` loop. -/
inductive ChatResult (V : Type) where
  | ok (out : V)
  | exc (e : Nat)
  | goalNotAchieved
  | outOfFuel
deriving Repr, DecidableEq

/-- The exit of the chat loop: `if goal_output is None: raise RuntimeError`,
else return the recorded output. -/
def chatFinish (s : RunState V) : ChatResult V × RunState V :=
  match s.goalOutput with
  | none => (ChatResult.goalNotAchieved, s)
  | some v => (ChatResult.ok v, s)

/-- The `while not achieved` loop of the chat pattern: durably fetch history
with key `"fetch_history"`, invoke the handler, and if the goal is still not
achieved create a fresh awakeable, overwrite the `"new_input_promise"` slot
with its id and wait on it.  `fuel` bounds the number of loop-condition
checks of the unbounded Python loop. -/
def chatLoop (env : ChatEnv V) : Nat → Nat → RunState V → ChatResult V × RunState V
  | 0, _, s => (ChatResult.outOfFuel, s)
  | fuel + 1, turn, s =>
    if s.achieved then chatFinish s
    else
      let p := durableRun "fetch_history" (fun _ => DVal.hist (env.histAt turn)) s
      let hist := p.1.asHist
      let s1 : RunState V := { p.2 with trace := Event.handlerStart turn hist :: p.2.trace }
      let q := runHandlerActions (env.handler turn hist) s1
      match q.1 with
      | some e => (ChatResult.exc e, q.2)
      | none =>
        let s2 : RunState V := { q.2 with trace := Event.handlerCompleted turn :: q.2.trace }
        if s2.achieved then chatLoop env fuel (turn + 1) s2
        else
          let a := awakeable s2
          let s3 := awaitPromise a.1 (setSlot a.1 a.2)
          chatLoop env fuel (turn + 1) s3

/-- The wrapped chat handler: create the initial awakeable, store its id in
the `"new_input_promise"` slot, wait on it first if `first_turn == "user"`,
then run the chat loop. -/
def chat (firstTurn : String) (env : ChatEnv V) (fuel : Nat) : ChatResult V × RunState V :=
  let a := awakeable ({} : RunState V)
  let s := setSlot a.1 a.2
  let s1 := if firstTurn == "user" then awaitPromise a.1 s else s
  chatLoop env fuel 0 s1

/-- The behaviour of one workflow handler invocation: the messages it sends
in order, then its outcome (return value or raised exception). -/
structure WBehavior (V : Type) where
  sends : List Nat
  outcome : Except Nat V

/-- The environment of a workflow run: the history page returned when a fetch
actually executes at loop iteration `i`, the handler behaviour per iteration,
and the scheduling of the `asyncio.wait` race: `inputWins i = true` means the
new-input awakeable of iteration `i` resolved before the handler task
finished (so the handler task is cancelled), and `progress i` is how many of
its sends the cancelled handler had completed before cancellation. -/
structure WorkflowEnv (V : Type) where
  histAt : Nat → List Nat
  handler : Nat → List Nat → WBehavior V
  inputWins : Nat → Bool
  progress : Nat → Nat

/-- The result of the wrapped workflow handler. -/
inductive WResult (V : Type) where
  | ok (v : V)
  | exc (e : Nat)
  | outOfFuel
deriving Repr, DecidableEq

/-- The sends a handler invocation has completed, executed in order. -/
def execSends : List Nat → RunState V → RunState V
  | [], s => s
  | m :: rest, s => execSends rest (sendMessageCall m s)

/-- The `while True` loop of the workflow pattern: each iteration creates a
fresh awakeable, overwrites the `"new_input_promise"` slot with its id,
durably fetches history, and invokes the handler — racing it against the
awakeable when `interruptable`, cancelling the handler and looping when the
awakeable resolves first, and otherwise returning the handler's result or
propagating its exception. -/
def workflowLoop (env : WorkflowEnv V) (interruptable : Bool) :
    Nat → Nat → RunState V → WResult V × RunState V
  | 0, _, s => (WResult.outOfFuel, s)
  | fuel + 1, iter, s =>
    let a := awakeable s
    let s1 := setSlot a.1 a.2
    let p := durableRun "fetch_history" (fun _ => DVal.hist (env.histAt iter)) s1
    let hist := p.1.asHist
    let beh := env.handler iter hist
    let s2 : RunState V := { p.2 with trace := Event.handlerStart iter hist :: p.2.trace }
    if interruptable && env.inputWins iter then
      let s3 := execSends (beh.sends.take (env.progress iter)) s2
      let s4 := awaitPromise a.1 s3
      let s5 : RunState V := { s4 with trace := Event.handlerCancelled iter :: s4.trace }
      workflowLoop env interruptable fuel (iter + 1) s5
    else
      let s3 := execSends beh.sends s2
      let s4 : RunState V := { s3 with trace := Event.handlerCompleted iter :: s3.trace }
      match beh.outcome with
      | Except.ok v => (WResult.ok v, s4)
      | Except.error e => (WResult.exc e, s4)

/-- The wrapped workflow handler. -/
def workflow (interruptable : Bool) (env : WorkflowEnv V) (fuel : Nat) :
    WResult V × RunState V :=
  workflowLoop env interruptable fuel 0 ({} : RunState V)

/-! ## Trace observations -/

/-- The number of handler invocations recorded in a trace. -/
def countHandlerStarts : List Event → Nat
  | [] => 0
  | Event.handlerStart _ _ :: rest => countHandlerStarts rest + 1
  | _ :: rest => countHandlerStarts rest

/-- The number of awakeable waits recorded in a trace. -/
def countAwaits : List Event → Nat
  | [] => 0
  | Event.awaited _ :: rest => countAwaits rest + 1
  | _ :: rest => countAwaits rest

/-- The number of durable run calls with the given key recorded in a trace
(re-issued memoized calls included). -/
def countRunCalls (key : String) : List Event → Nat
  | [] => 0
  | Event.runCall k _ :: rest => (if k == key then 1 else 0) + countRunCalls key rest
  | _ :: rest => countRunCalls key rest

/-- The id written by the most recent `ctx.set("new_input_promise", ...)`
below a point of the trace (trace is newest first). -/
def firstSlotSet : List Event → Option Nat
  | [] => none
  | Event.slotSet id :: _ => some id
  | _ :: rest => firstSlotSet rest

/-- The id of the most recently created awakeable below a point of the trace
(trace is newest first). -/
def firstCreated : List Event → Option Nat
  | [] => none
  | Event.awakeableCreated id :: _ => some id
  | _ :: rest => firstCreated rest

/-- Every wait recorded in the trace is on the awakeable whose id is both the
current content of the `"new_input_promise"` slot and the most recently
created awakeable id. -/
def waitsConsistent : List Event → Bool
  | [] => true
  | Event.awaited id :: rest =>
      (firstSlotSet rest == some id) && (firstCreated rest == some id) && waitsConsistent rest
  | _ :: rest => waitsConsistent rest

/-- Every write of the `"new_input_promise"` slot stores exactly the id of
the most recently created awakeable. -/
def slotSetsMatchCreate : List Event → Bool
  | [] => true
  | Event.slotSet id :: rest => (firstCreated rest == some id) && slotSetsMatchCreate rest
  | _ :: rest => slotSetsMatchCreate rest

/-- The recorded `"fetch_history"` journal entry of a state, if any. -/
def fetchVal (s : RunState V) : Option DVal :=
  (s.journal.find? (fun kv => kv.fst == "fetch_history")).map Prod.snd

/-! ## Basic lemmas about the primitives -/

theorem sendMessageCall_state (m : Nat) (s : RunState V) :
    ∃ b j, sendMessageCall m s
        = { s with journal := j, trace := Event.runCall "send_message" b :: s.trace }
      ∧ j.find? (fun kv => kv.fst == "fetch_history")
          = s.journal.find? (fun kv => kv.fst == "fetch_history") := by
  unfold sendMessageCall durableRun
  cases h : s.journal.find? (fun kv => kv.fst == "send_message") with
  | some kv => exact ⟨false, s.journal, by simp [h], rfl⟩
  | none =>
    refine ⟨true, ("send_message", DVal.msgResp m) :: s.journal, by simp [h], ?_⟩
    simp [List.find?]

theorem trace_obs_cons_runCall (k : String) (b : Bool) (tr : List Event) :
    firstSlotSet (Event.runCall k b :: tr) = firstSlotSet tr
    ∧ firstCreated (Event.runCall k b :: tr) = firstCreated tr
    ∧ waitsConsistent (Event.runCall k b :: tr) = waitsConsistent tr
    ∧ slotSetsMatchCreate (Event.runCall k b :: tr) = slotSetsMatchCreate tr
    ∧ countHandlerStarts (Event.runCall k b :: tr) = countHandlerStarts tr
    ∧ countAwaits (Event.runCall k b :: tr) = countAwaits tr := by
  refine ⟨rfl, rfl, rfl, rfl, ?_, ?_⟩ <;> simp [countHandlerStarts, countAwaits]

theorem sendMessageCall_obs (m : Nat) (s : RunState V) :
    fetchVal (sendMessageCall m s) = fetchVal s
    ∧ (sendMessageCall m s).slot = s.slot
    ∧ (sendMessageCall m s).nextAwk = s.nextAwk
    ∧ (sendMessageCall m s).achieved = s.achieved
    ∧ (sendMessageCall m s).goalOutput = s.goalOutput
    ∧ firstSlotSet (sendMessageCall m s).trace = firstSlotSet s.trace
    ∧ firstCreated (sendMessageCall m s).trace = firstCreated s.trace
    ∧ waitsConsistent (sendMessageCall m s).trace = waitsConsistent s.trace
    ∧ slotSetsMatchCreate (sendMessageCall m s).trace = slotSetsMatchCreate s.trace
    ∧ countHandlerStarts (sendMessageCall m s).trace = countHandlerStarts s.trace
    ∧ countAwaits (sendMessageCall m s).trace = countAwaits s.trace
    ∧ countRunCalls "fetch_history" (sendMessageCall m s).trace
        = countRunCalls "fetch_history" s.trace
    ∧ countRunCalls "send_message" (sendMessageCall m s).trace
        = countRunCalls "send_message" s.trace + 1 := by
  obtain ⟨b, j, hs, hf⟩ := sendMessageCall_state m s
  rw [hs]
  refine ⟨by simp [fetchVal, hf], rfl, rfl, rfl, rfl, rfl, rfl, rfl, rfl, ?_, ?_, ?_, ?_⟩
  · simp [countHandlerStarts]
  · simp [countAwaits]
  · simp [countRunCalls]
  · simp [countRunCalls]
    omega

theorem runHandlerActions_fst (acts : List (HAction V)) : ∀ s : RunState V,
    (runHandlerActions acts s).1 = actionsRaise acts := by
  induction acts with
  | nil => intro s; rfl
  | cons a rest ih =>
    intro s
    cases a <;> simp [runHandlerActions, actionsRaise, ih]

theorem runHandlerActions_obs (acts : List (HAction V)) : ∀ s : RunState V,
    fetchVal (runHandlerActions acts s).2 = fetchVal s
    ∧ (runHandlerActions acts s).2.slot = s.slot
    ∧ (runHandlerActions acts s).2.nextAwk = s.nextAwk
    ∧ firstSlotSet (runHandlerActions acts s).2.trace = firstSlotSet s.trace
    ∧ firstCreated (runHandlerActions acts s).2.trace = firstCreated s.trace
    ∧ waitsConsistent (runHandlerActions acts s).2.trace = waitsConsistent s.trace
    ∧ slotSetsMatchCreate (runHandlerActions acts s).2.trace = slotSetsMatchCreate s.trace
    ∧ countHandlerStarts (runHandlerActions acts s).2.trace = countHandlerStarts s.trace
    ∧ countAwaits (runHandlerActions acts s).2.trace = countAwaits s.trace
    ∧ countRunCalls "fetch_history" (runHandlerActions acts s).2.trace
        = countRunCalls "fetch_history" s.trace := by
  induction acts with
  | nil => intro s; exact ⟨rfl, rfl, rfl, rfl, rfl, rfl, rfl, rfl, rfl, rfl⟩
  | cons a rest ih =>
    intro s
    cases a with
    | sendMessage m =>
      obtain ⟨h1, h2, h3, h4, h5, h6, h7, h8, h9, h10⟩ := ih (sendMessageCall m s)
      obtain ⟨g1, g2, g3, _, _, g6, g7, g8, g9, g10, g11, g12, _⟩ := sendMessageCall_obs m s
      exact ⟨h1.trans g1, h2.trans g2, h3.trans g3, h4.trans g6, h5.trans g7,
        h6.trans g8, h7.trans g9, h8.trans g10, h9.trans g11, h10.trans g12⟩
    | goalAchieved out =>
      obtain ⟨h1, h2, h3, h4, h5, h6, h7, h8, h9, h10⟩ := ih (onGoalAchieved out s)
      exact ⟨h1, h2, h3, h4, h5, h6, h7, h8, h9, h10⟩
    | raiseExc e => exact ⟨rfl, rfl, rfl, rfl, rfl, rfl, rfl, rfl, rfl, rfl⟩

/-- The value held by `goal_output` after an invocation with these steps,
starting from the given previous value (execution stops at a raise). -/
def finalGoal : List (HAction V) → Option V → Option V
  | [], g => g
  | HAction.goalAchieved out :: rest, _ => finalGoal rest out
  | HAction.raiseExc _ :: _, g => g
  | HAction.sendMessage _ :: rest, g => finalGoal rest g

/-- The value held by `achieved` after an invocation with these steps. -/
def finalAchieved : List (HAction V) → Bool → Bool
  | [], a => a
  | HAction.goalAchieved _ :: rest, _ => finalAchieved rest true
  | HAction.raiseExc _ :: _, a => a
  | HAction.sendMessage _ :: rest, a => finalAchieved rest a

/-- The number of `send_message` calls an invocation actually performs
(sends after a raise do not execute). -/
def countSendsRun : List (HAction V) → Nat
  | [] => 0
  | HAction.sendMessage _ :: rest => countSendsRun rest + 1
  | HAction.raiseExc _ :: _ => 0
  | HAction.goalAchieved _ :: rest => countSendsRun rest

theorem runHandlerActions_final (acts : List (HAction V)) : ∀ s : RunState V,
    (runHandlerActions acts s).2.goalOutput = finalGoal acts s.goalOutput
    ∧ (runHandlerActions acts s).2.achieved = finalAchieved acts s.achieved
    ∧ countRunCalls "send_message" (runHandlerActions acts s).2.trace
        = countRunCalls "send_message" s.trace + countSendsRun acts := by
  induction acts with
  | nil => intro s; exact ⟨rfl, rfl, rfl⟩
  | cons a rest ih =>
    intro s
    cases a with
    | sendMessage m =>
      obtain ⟨h1, h2, h3⟩ := ih (sendMessageCall m s)
      obtain ⟨_, _, _, g4, g5, _, _, _, _, _, _, _, g13⟩ := sendMessageCall_obs m s
      refine ⟨?_, ?_, ?_⟩
      · simpa [runHandlerActions, finalGoal, g5] using h1
      · simpa [runHandlerActions, finalAchieved, g4] using h2
      · rw [show runHandlerActions (HAction.sendMessage m :: rest) s
              = runHandlerActions rest (sendMessageCall m s) from rfl, h3, g13, countSendsRun]
        omega
    | goalAchieved out =>
      obtain ⟨h1, h2, h3⟩ := ih (onGoalAchieved out s)
      exact ⟨by simpa [runHandlerActions, finalGoal, onGoalAchieved] using h1,
        by simpa [runHandlerActions, finalAchieved, onGoalAchieved] using h2,
        by simpa [runHandlerActions, countSendsRun, onGoalAchieved] using h3⟩
    | raiseExc e => exact ⟨rfl, rfl, by simp [runHandlerActions, countSendsRun]⟩

theorem finalGoal_of_getLast (acts : List (HAction V)) (h : actionsRaise acts = none) :
    ∀ g : Option V, finalGoal acts g = ((goalsOf acts).getLast?).getD g := by
  induction acts with
  | nil => intro g; rfl
  | cons a rest ih =>
    intro g
    cases a with
    | sendMessage m => simpa [finalGoal, goalsOf] using ih h g
    | goalAchieved out =>
      rw [finalGoal, ih h out, goalsOf]
      cases hg : (goalsOf rest).getLast? with
      | none =>
        have he : goalsOf rest = [] := List.getLast?_eq_none_iff.mp hg
        simp [he]
      | some o =>
        cases hr : goalsOf rest with
        | nil => rw [hr] at hg; simp at hg
        | cons x xs =>
          rw [hr] at hg
          simp [List.getLast?_cons_cons, hg]
    | raiseExc e => simp [actionsRaise] at h

theorem finalAchieved_of_goals (acts : List (HAction V)) (h : actionsRaise acts = none) :
    ∀ a : Bool, finalAchieved acts a = (a || !(goalsOf acts).isEmpty) := by
  induction acts with
  | nil => intro a; simp [finalAchieved, goalsOf]
  | cons hd rest ih =>
    intro a
    cases hd with
    | sendMessage m => simpa [finalAchieved, goalsOf] using ih h a
    | goalAchieved out => simp [finalAchieved, goalsOf, ih h true]
    | raiseExc e => simp [actionsRaise] at h

theorem countSendsRun_of_no_raise (acts : List (HAction V)) (h : actionsRaise acts = none) :
    countSendsRun acts = countSends acts := by
  induction acts with
  | nil => rfl
  | cons hd rest ih =>
    cases hd with
    | sendMessage m => simp [countSendsRun, countSends, ih h]
    | goalAchieved out => simp [countSendsRun, countSends, ih h]
    | raiseExc e => simp [actionsRaise] at h

theorem finalGoal_ne_none (acts : List (HAction V)) :
    ∀ (g : Option V) (a : Bool),
    (∀ o ∈ goalsOf acts, o ≠ none) → (a = true → g ≠ none) →
    finalAchieved acts a = true → finalGoal acts g ≠ none := by
  induction acts with
  | nil => intro g a _ ha hf; exact ha hf
  | cons hd rest ih =>
    intro g a hg ha
    cases hd with
    | sendMessage m => exact ih g a (fun o ho => hg o (by simp [goalsOf, ho])) ha
    | goalAchieved out =>
      exact ih out true (fun o ho => hg o (by simp [goalsOf, ho]))
        (fun _ => hg out (by simp [goalsOf]))
    | raiseExc e => intro hf; exact ha hf

theorem execSends_obs (ms : List Nat) : ∀ s : RunState V,
    fetchVal (execSends ms s) = fetchVal s
    ∧ (execSends ms s).slot = s.slot
    ∧ (execSends ms s).nextAwk = s.nextAwk
    ∧ (execSends ms s).achieved = s.achieved
    ∧ (execSends ms s).goalOutput = s.goalOutput
    ∧ firstSlotSet (execSends ms s).trace = firstSlotSet s.trace
    ∧ firstCreated (execSends ms s).trace = firstCreated s.trace
    ∧ waitsConsistent (execSends ms s).trace = waitsConsistent s.trace
    ∧ slotSetsMatchCreate (execSends ms s).trace = slotSetsMatchCreate s.trace
    ∧ countHandlerStarts (execSends ms s).trace = countHandlerStarts s.trace
    ∧ countAwaits (execSends ms s).trace = countAwaits s.trace
    ∧ countRunCalls "fetch_history" (execSends ms s).trace
        = countRunCalls "fetch_history" s.trace := by
  induction ms with
  | nil =>
    intro s
    exact ⟨rfl, rfl, rfl, rfl, rfl, rfl, rfl, rfl, rfl, rfl, rfl, rfl⟩
  | cons m rest ih =>
    intro s
    obtain ⟨h1, h2, h3, h4, h5, h6, h7, h8, h9, h10, h11, h12⟩ := ih (sendMessageCall m s)
    obtain ⟨g1, g2, g3, g4, g5, g6, g7, g8, g9, g10, g11, g12, _⟩ := sendMessageCall_obs m s
    exact ⟨h1.trans g1, h2.trans g2, h3.trans g3, h4.trans g4, h5.trans g5, h6.trans g6,
      h7.trans g7, h8.trans g8, h9.trans g9, h10.trans g10, h11.trans g11, h12.trans g12⟩

theorem runHandlerActions_trace (acts : List (HAction V)) : ∀ s : RunState V,
    ∃ tl, (runHandlerActions acts s).2.trace = tl ++ s.trace
      ∧ ∀ e ∈ tl, ∃ b, e = Event.runCall "send_message" b := by
  induction acts with
  | nil => intro s; exact ⟨[], by simp [runHandlerActions], by simp⟩
  | cons a rest ih =>
    intro s
    cases a with
    | sendMessage m =>
      obtain ⟨tl, htl, hall⟩ := ih (sendMessageCall m s)
      obtain ⟨b, j, hs, _⟩ := sendMessageCall_state m s
      refine ⟨tl ++ [Event.runCall "send_message" b], ?_, ?_⟩
      · rw [show runHandlerActions (HAction.sendMessage m :: rest) s
              = runHandlerActions rest (sendMessageCall m s) from rfl, htl, hs]
        simp
      · intro e he
        rcases List.mem_append.mp he with h | h
        · exact hall e h
        · exact ⟨b, by simpa using h⟩
    | goalAchieved out =>
      obtain ⟨tl, htl, hall⟩ := ih (onGoalAchieved out s)
      exact ⟨tl, by simpa [runHandlerActions, onGoalAchieved] using htl, hall⟩
    | raiseExc e => exact ⟨[], by simp [runHandlerActions], by simp⟩

theorem execSends_trace (ms : List Nat) : ∀ s : RunState V,
    ∃ tl, (execSends ms s).trace = tl ++ s.trace
      ∧ ∀ e ∈ tl, ∃ b, e = Event.runCall "send_message" b := by
  induction ms with
  | nil => intro s; exact ⟨[], by simp [execSends], by simp⟩
  | cons m rest ih =>
    intro s
    obtain ⟨tl, htl, hall⟩ := ih (sendMessageCall m s)
    obtain ⟨b, j, hs, _⟩ := sendMessageCall_state m s
    refine ⟨tl ++ [Event.runCall "send_message" b], ?_, ?_⟩
    · rw [show execSends (m :: rest) s = execSends rest (sendMessageCall m s) from rfl, htl, hs]
      simp
    · intro e he
      rcases List.mem_append.mp he with h | h
      · exact hall e h
      · exact ⟨b, by simpa using h⟩

theorem durableRun_of_fetchVal_some (s : RunState V) (v : DVal) (fn : Unit → DVal)
    (h : fetchVal s = some v) :
    durableRun "fetch_history" fn s
      = (v, { s with trace := Event.runCall "fetch_history" false :: s.trace }) := by
  unfold fetchVal at h
  cases hf : s.journal.find? (fun kv => kv.fst == "fetch_history") with
  | none => rw [hf] at h; simp at h
  | some kv =>
    rw [hf] at h
    obtain rfl : kv.2 = v := by simpa using h
    simp [durableRun, hf]

theorem durableRun_of_fetchVal_none (s : RunState V) (fn : Unit → DVal)
    (h : fetchVal s = none) :
    durableRun "fetch_history" fn s
      = (fn (), { s with journal := ("fetch_history", fn ()) :: s.journal,
                         trace := Event.runCall "fetch_history" true :: s.trace }) := by
  unfold fetchVal at h
  cases hf : s.journal.find? (fun kv => kv.fst == "fetch_history") with
  | none => simp [durableRun, hf]
  | some kv => rw [hf] at h; simp at h

theorem fetchVal_record (s : RunState V) (v : DVal) (tr : List Event) :
    fetchVal { s with journal := ("fetch_history", v) :: s.journal, trace := tr } = some v := by
  simp [fetchVal, List.find?]

theorem chatFinish_snd (s : RunState V) : (chatFinish s).2 = s := by
  unfold chatFinish
  cases s.goalOutput <;> rfl

theorem durableRun_state (k : String) (fn : Unit → DVal) (s : RunState V) :
    ∃ b j, (durableRun k fn s).2
      = { s with journal := j, trace := Event.runCall k b :: s.trace } := by
  cases hf : s.journal.find? (fun kv => kv.fst == k) with
  | some kv => exact ⟨false, s.journal, by simp [durableRun, hf]⟩
  | none =>
    exact ⟨true, (k, fn ()) :: s.journal, by simp [durableRun, hf]⟩

theorem durableRun_achieved (k : String) (fn : Unit → DVal) (s : RunState V) :
    (durableRun k fn s).2.achieved = s.achieved := by
  obtain ⟨b, j, hp⟩ := durableRun_state k fn s
  rw [hp]

theorem durableRun_goalOutput (k : String) (fn : Unit → DVal) (s : RunState V) :
    (durableRun k fn s).2.goalOutput = s.goalOutput := by
  obtain ⟨b, j, hp⟩ := durableRun_state k fn s
  rw [hp]

theorem durableRun_slot (k : String) (fn : Unit → DVal) (s : RunState V) :
    (durableRun k fn s).2.slot = s.slot := by
  obtain ⟨b, j, hp⟩ := durableRun_state k fn s
  rw [hp]

theorem durableRun_nextAwk (k : String) (fn : Unit → DVal) (s : RunState V) :
    (durableRun k fn s).2.nextAwk = s.nextAwk := by
  obtain ⟨b, j, hp⟩ := durableRun_state k fn s
  rw [hp]

theorem countHandlerStarts_execSends (ms : List Nat) (s : RunState V) :
    countHandlerStarts (execSends ms s).trace = countHandlerStarts s.trace :=
  ((execSends_obs ms s).2.2.2.2.2.2.2.2.2.1)

theorem countAwaits_execSends (ms : List Nat) (s : RunState V) :
    countAwaits (execSends ms s).trace = countAwaits s.trace :=
  ((execSends_obs ms s).2.2.2.2.2.2.2.2.2.2.1)

theorem countFetch_execSends (ms : List Nat) (s : RunState V) :
    countRunCalls "fetch_history" (execSends ms s).trace
      = countRunCalls "fetch_history" s.trace :=
  ((execSends_obs ms s).2.2.2.2.2.2.2.2.2.2.2)

/-- C3: with `interruptable = false` the workflow invokes the handler exactly
once, performs no race against the new-input awakeable (no wait ever happens
and the race oracles are never consulted), performs exactly one
`fetch_history` durable call, and returns the handler's result unmodified
(return value or propagated exception). -/
theorem workflow_non_interruptable (V : Type) (env : WorkflowEnv V) (fuel : Nat)
    (hfuel : 1 ≤ fuel) :
    (workflow false env fuel).1
        = (match (env.handler 0 (env.histAt 0)).outcome with
            | Except.ok v => WResult.ok v
            | Except.error e => WResult.exc e)
    ∧ countHandlerStarts (workflow false env fuel).2.trace = 1
    ∧ countAwaits (workflow false env fuel).2.trace = 0
    ∧ countRunCalls "fetch_history" (workflow false env fuel).2.trace = 1
    ∧ (∀ env2 : WorkflowEnv V, env2.histAt = env.histAt → env2.handler = env.handler →
        workflow false env2 fuel = workflow false env fuel) := by
  obtain ⟨k, rfl⟩ : ∃ k, fuel = k + 1 := ⟨fuel - 1, by omega⟩
  refine ⟨?_, ?_, ?_, ?_, ?_⟩
  · cases ho : (env.handler 0 (env.histAt 0)).outcome with
    | ok v =>
      simp [workflow, workflowLoop, awakeable, setSlot, durableRun, List.find?,
        DVal.asHist, ho]
    | error e =>
      simp [workflow, workflowLoop, awakeable, setSlot, durableRun, List.find?,
        DVal.asHist, ho]
  · cases ho : (env.handler 0 (env.histAt 0)).outcome with
    | ok v =>
      simp [workflow, workflowLoop, awakeable, setSlot, durableRun, List.find?,
        DVal.asHist, ho, countHandlerStarts_execSends, countHandlerStarts]
    | error e =>
      simp [workflow, workflowLoop, awakeable, setSlot, durableRun, List.find?,
        DVal.asHist, ho, countHandlerStarts_execSends, countHandlerStarts]
  · cases ho : (env.handler 0 (env.histAt 0)).outcome with
    | ok v =>
      simp [workflow, workflowLoop, awakeable, setSlot, durableRun, List.find?,
        DVal.asHist, ho, countAwaits_execSends, countAwaits]
    | error e =>
      simp [workflow, workflowLoop, awakeable, setSlot, durableRun, List.find?,
        DVal.asHist, ho, countAwaits_execSends, countAwaits]
  · cases ho : (env.handler 0 (env.histAt 0)).outcome with
    | ok v =>
      simp [workflow, workflowLoop, awakeable, setSlot, durableRun, List.find?,
        DVal.asHist, ho, countFetch_execSends, countRunCalls]
    | error e =>
      simp [workflow, workflowLoop, awakeable, setSlot, durableRun, List.find?,
        DVal.asHist, ho, countFetch_execSends, countRunCalls]
  · intro env2 h1 h2
    simp only [workflow, workflowLoop, Bool.false_and, Bool.false_eq_true, if_false, h1, h2]

/-- A concrete non-interruptable workflow environment. -/
def wenvC3 : WorkflowEnv Nat :=
  { histAt := fun _ => []
    handler := fun _ _ => { sends := [1], outcome := Except.ok 5 }
    inputWins := fun _ => true
    progress := fun _ => 0 }

theorem workflow_non_interruptable_witness :
    (workflow false wenvC3 1).1 = WResult.ok 5
    ∧ countHandlerStarts (workflow false wenvC3 1).2.trace = 1
    ∧ countAwaits (workflow false wenvC3 1).2.trace = 0
    ∧ countRunCalls "fetch_history" (workflow false wenvC3 1).2.trace = 1 := by
  obtain ⟨h1, h2, h3, h4, _⟩ := workflow_non_interruptable Nat wenvC3 1 (le_refl 1)
  exact ⟨h1, h2, h3, h4⟩

theorem countHandlerStarts_runH (acts : List (HAction V)) (s : RunState V) :
    countHandlerStarts (runHandlerActions acts s).2.trace = countHandlerStarts s.trace :=
  ((runHandlerActions_obs acts s).2.2.2.2.2.2.2.1)

theorem countAwaits_runH (acts : List (HAction V)) (s : RunState V) :
    countAwaits (runHandlerActions acts s).2.trace = countAwaits s.trace :=
  ((runHandlerActions_obs acts s).2.2.2.2.2.2.2.2.1)

theorem countFetch_runH (acts : List (HAction V)) (s : RunState V) :
    countRunCalls "fetch_history" (runHandlerActions acts s).2.trace
      = countRunCalls "fetch_history" s.trace :=
  ((runHandlerActions_obs acts s).2.2.2.2.2.2.2.2.2)

/-- C8: both pattern engines propagate a handler exception unchanged to the
caller: a chat handler that raises `e` makes the chat pattern fail with `e`
after a single invocation, and a workflow handler that raises `e2` makes the
workflow (interruptable or not) fail with `e2` after a single invocation —
no exception is caught, swallowed or retried inside the engines. -/
theorem handler_exceptions_propagate (V : Type) (env : ChatEnv V) (wenv : WorkflowEnv V)
    (e e2 : Nat) (fuel wfuel : Nat) (hfuel : 1 ≤ fuel) (hwfuel : 1 ≤ wfuel)
    (hch : ∀ h, actionsRaise (env.handler 0 h) = some e)
    (hwh : ∀ h, (wenv.handler 0 h).outcome = Except.error e2)
    (hwin : wenv.inputWins 0 = false) :
    (chat "agent" env fuel).1 = ChatResult.exc e
    ∧ countHandlerStarts (chat "agent" env fuel).2.trace = 1
    ∧ (workflow false wenv wfuel).1 = WResult.exc e2
    ∧ (workflow true wenv wfuel).1 = WResult.exc e2
    ∧ countHandlerStarts (workflow true wenv wfuel).2.trace = 1 := by
  obtain ⟨k, rfl⟩ : ∃ k, fuel = k + 1 := ⟨fuel - 1, by omega⟩
  obtain ⟨k2, rfl⟩ : ∃ k2, wfuel = k2 + 1 := ⟨wfuel - 1, by omega⟩
  have hr : ∀ s : RunState V, (runHandlerActions (env.handler 0 (env.histAt 0)) s).1 = some e :=
    fun s => (runHandlerActions_fst _ s).trans (hch _)
  refine ⟨?_, ?_, ?_, ?_, ?_⟩
  · simp [chat, chatLoop, awakeable, setSlot, durableRun, List.find?, DVal.asHist, hr]
  · simp [chat, chatLoop, awakeable, setSlot, durableRun, List.find?, DVal.asHist, hr,
      countHandlerStarts_runH, countHandlerStarts]
  · simp [workflow, workflowLoop, awakeable, setSlot, durableRun, List.find?,
      DVal.asHist, hwh (wenv.histAt 0)]
  · simp [workflow, workflowLoop, awakeable, setSlot, durableRun, List.find?,
      DVal.asHist, hwin, hwh (wenv.histAt 0)]
  · simp [workflow, workflowLoop, awakeable, setSlot, durableRun, List.find?,
      DVal.asHist, hwin, hwh (wenv.histAt 0), countHandlerStarts_execSends,
      countHandlerStarts]

/-- A chat environment whose handler always raises exception 3. -/
def cenvC8 : ChatEnv Nat :=
  { histAt := fun _ => [], handler := fun _ _ => [HAction.raiseExc 3] }

/-- A workflow environment whose handler always raises exception 4. -/
def wenvC8 : WorkflowEnv Nat :=
  { histAt := fun _ => []
    handler := fun _ _ => { sends := [], outcome := Except.error 4 }
    inputWins := fun _ => false
    progress := fun _ => 0 }

theorem handler_exceptions_propagate_witness :
    (chat "agent" cenvC8 1).1 = ChatResult.exc 3
    ∧ countHandlerStarts (chat "agent" cenvC8 1).2.trace = 1
    ∧ (workflow false wenvC8 1).1 = WResult.exc 4
    ∧ (workflow true wenvC8 1).1 = WResult.exc 4
    ∧ countHandlerStarts (workflow true wenvC8 1).2.trace = 1 :=
  handler_exceptions_propagate Nat cenvC8 wenvC8 3 4 1 1 (le_refl 1) (le_refl 1)
    (fun _ => rfl) (fun _ => rfl) rfl

theorem countHandlerStarts_durableRun (k : String) (fn : Unit → DVal) (s : RunState V) :
    countHandlerStarts (durableRun k fn s).2.trace = countHandlerStarts s.trace := by
  obtain ⟨b, j, hp⟩ := durableRun_state k fn s
  rw [hp]
  simp [countHandlerStarts]

theorem countAwaits_durableRun (k : String) (fn : Unit → DVal) (s : RunState V) :
    countAwaits (durableRun k fn s).2.trace = countAwaits s.trace := by
  obtain ⟨b, j, hp⟩ := durableRun_state k fn s
  rw [hp]
  simp [countAwaits]

/-- C1: a chat handler that neither achieves the goal nor raises on its first
two invocations (it only sends messages) and invokes `on_goal_achieved(X)` on
its third makes the chat pattern (with `first_turn = "agent"`) return `X`,
with the handler invoked exactly three times and the engine waiting on
exactly two newly created new-input awakeables. -/
theorem chat_three_turn_termination (V : Type) (env : ChatEnv V) (X : V) (fuel : Nat)
    (hfuel : 4 ≤ fuel)
    (h0 : ∀ h, goalsOf (env.handler 0 h) = [] ∧ actionsRaise (env.handler 0 h) = none)
    (h1 : ∀ h, goalsOf (env.handler 1 h) = [] ∧ actionsRaise (env.handler 1 h) = none)
    (h2 : ∀ h, goalsOf (env.handler 2 h) = [some X]
        ∧ actionsRaise (env.handler 2 h) = none) :
    (chat "agent" env fuel).1 = ChatResult.ok X
    ∧ countHandlerStarts (chat "agent" env fuel).2.trace = 3
    ∧ countAwaits (chat "agent" env fuel).2.trace = 2 := by
  obtain ⟨k, rfl⟩ : ∃ k, fuel = (((k + 1) + 1) + 1) + 1 := ⟨fuel - 4, by omega⟩
  have hr0 : ∀ (h : List Nat) (s : RunState V),
      (runHandlerActions (env.handler 0 h) s).1 = none :=
    fun h s => (runHandlerActions_fst _ _).trans (h0 h).2
  have hr1 : ∀ (h : List Nat) (s : RunState V),
      (runHandlerActions (env.handler 1 h) s).1 = none :=
    fun h s => (runHandlerActions_fst _ _).trans (h1 h).2
  have hr2 : ∀ (h : List Nat) (s : RunState V),
      (runHandlerActions (env.handler 2 h) s).1 = none :=
    fun h s => (runHandlerActions_fst _ _).trans (h2 h).2
  have hach0 : ∀ (h : List Nat) (s : RunState V),
      (runHandlerActions (env.handler 0 h) s).2.achieved = s.achieved := fun h s => by
    rw [(runHandlerActions_final _ _).2.1, finalAchieved_of_goals _ (h0 h).2, (h0 h).1]
    simp
  have hach1 : ∀ (h : List Nat) (s : RunState V),
      (runHandlerActions (env.handler 1 h) s).2.achieved = s.achieved := fun h s => by
    rw [(runHandlerActions_final _ _).2.1, finalAchieved_of_goals _ (h1 h).2, (h1 h).1]
    simp
  have hach2 : ∀ (h : List Nat) (s : RunState V),
      (runHandlerActions (env.handler 2 h) s).2.achieved = true := fun h s => by
    rw [(runHandlerActions_final _ _).2.1, finalAchieved_of_goals _ (h2 h).2, (h2 h).1]
    simp
  have hgo0 : ∀ (h : List Nat) (s : RunState V),
      (runHandlerActions (env.handler 0 h) s).2.goalOutput = s.goalOutput := fun h s => by
    rw [(runHandlerActions_final _ _).1, finalGoal_of_getLast _ (h0 h).2, (h0 h).1]
    simp
  have hgo1 : ∀ (h : List Nat) (s : RunState V),
      (runHandlerActions (env.handler 1 h) s).2.goalOutput = s.goalOutput := fun h s => by
    rw [(runHandlerActions_final _ _).1, finalGoal_of_getLast _ (h1 h).2, (h1 h).1]
    simp
  have hgo2 : ∀ (h : List Nat) (s : RunState V),
      (runHandlerActions (env.handler 2 h) s).2.goalOutput = some X := fun h s => by
    rw [(runHandlerActions_final _ _).1, finalGoal_of_getLast _ (h2 h).2, (h2 h).1]
    simp
  refine ⟨?_, ?_, ?_⟩ <;>
    simp [chat, chatLoop, awakeable, setSlot, awaitPromise, DVal.asHist,
      hr0, hr1, hr2, hach0, hach1, hach2, hgo0, hgo1, hgo2,
      durableRun_achieved, durableRun_goalOutput, countHandlerStarts_durableRun,
      countAwaits_durableRun, countHandlerStarts_runH, countAwaits_runH,
      chatFinish, countHandlerStarts, countAwaits]

/-- A chat environment that sends on turns 0 and 1 and achieves goal 7 on
turn 2. -/
def cenvC1 : ChatEnv Nat :=
  { histAt := fun _ => []
    handler := fun t _ =>
      if t = 0 then [HAction.sendMessage 1]
      else if t = 1 then [HAction.sendMessage 2]
      else [HAction.goalAchieved (some 7)] }

theorem chat_three_turn_termination_witness :
    (chat "agent" cenvC1 4).1 = ChatResult.ok 7
    ∧ countHandlerStarts (chat "agent" cenvC1 4).2.trace = 3
    ∧ countAwaits (chat "agent" cenvC1 4).2.trace = 2 :=
  chat_three_turn_termination Nat cenvC1 7 4 (le_refl 4)
    (fun _ => ⟨rfl, rfl⟩) (fun _ => ⟨rfl, rfl⟩) (fun _ => ⟨rfl, rfl⟩)

/-- C9: a chat handler that invokes `on_goal_achieved` more than once within
a single turn is not interrupted: the whole invocation still executes
(including sends placed after the goal calls), the pattern completes after
that turn, and it returns the output passed to the last invocation. -/
theorem chat_multiple_goal_calls (V : Type) (env : ChatEnv V) (X : V) (fuel : Nat)
    (acts : List (HAction V))
    (hfuel : 2 ≤ fuel)
    (hact : ∀ h, env.handler 0 h = acts)
    (hraise : actionsRaise acts = none)
    (htwo : 2 ≤ (goalsOf acts).length)
    (hlast : (goalsOf acts).getLast? = some (some X)) :
    (chat "agent" env fuel).1 = ChatResult.ok X
    ∧ countHandlerStarts (chat "agent" env fuel).2.trace = 1
    ∧ countAwaits (chat "agent" env fuel).2.trace = 0
    ∧ countRunCalls "send_message" (chat "agent" env fuel).2.trace = countSends acts := by
  obtain ⟨k, rfl⟩ : ∃ k, fuel = (k + 1) + 1 := ⟨fuel - 2, by omega⟩
  have hgoalsNE : (goalsOf acts).isEmpty = false := by
    cases hg : goalsOf acts with
    | nil => rw [hg] at htwo; simp at htwo
    | cons a l => rfl
  have hq1 : ∀ s : RunState V, (runHandlerActions acts s).1 = none :=
    fun s => (runHandlerActions_fst acts s).trans hraise
  have hach : ∀ s : RunState V, (runHandlerActions acts s).2.achieved = true := by
    intro s
    rw [(runHandlerActions_final acts s).2.1, finalAchieved_of_goals acts hraise, hgoalsNE]
    simp
  have hgo : ∀ s : RunState V, (runHandlerActions acts s).2.goalOutput = some X := by
    intro s
    rw [(runHandlerActions_final acts s).1, finalGoal_of_getLast acts hraise, hlast]
    rfl
  have hsend : ∀ s : RunState V,
      countRunCalls "send_message" (runHandlerActions acts s).2.trace
        = countRunCalls "send_message" s.trace + countSends acts := by
    intro s
    rw [(runHandlerActions_final acts s).2.2, countSendsRun_of_no_raise acts hraise]
  refine ⟨?_, ?_, ?_, ?_⟩ <;>
    simp [chat, chatLoop, awakeable, setSlot, durableRun, List.find?, DVal.asHist,
      hact, hq1, hach, hgo, hsend, chatFinish, countHandlerStarts_runH, countAwaits_runH,
      countHandlerStarts, countAwaits, countRunCalls]

/-- A single-turn action list with two goal calls and a send between them. -/
def actsC9 : List (HAction Nat) :=
  [HAction.goalAchieved (some 1), HAction.sendMessage 9, HAction.goalAchieved (some 2)]

/-- A chat environment whose handler performs `actsC9` on every turn. -/
def cenvC9 : ChatEnv Nat :=
  { histAt := fun _ => [], handler := fun _ _ => actsC9 }

theorem chat_multiple_goal_calls_witness :
    (chat "agent" cenvC9 2).1 = ChatResult.ok 2
    ∧ countHandlerStarts (chat "agent" cenvC9 2).2.trace = 1
    ∧ countAwaits (chat "agent" cenvC9 2).2.trace = 0
    ∧ countRunCalls "send_message" (chat "agent" cenvC9 2).2.trace = 1 :=
  chat_multiple_goal_calls Nat cenvC9 2 2 actsC9 (le_refl 2) (fun _ => rfl) rfl
    (by decide) (by decide)

theorem firstSlot_runH (acts : List (HAction V)) (s : RunState V) :
    firstSlotSet (runHandlerActions acts s).2.trace = firstSlotSet s.trace :=
  ((runHandlerActions_obs acts s).2.2.2.1)

theorem firstCreated_runH (acts : List (HAction V)) (s : RunState V) :
    firstCreated (runHandlerActions acts s).2.trace = firstCreated s.trace :=
  ((runHandlerActions_obs acts s).2.2.2.2.1)

theorem waits_runH (acts : List (HAction V)) (s : RunState V) :
    waitsConsistent (runHandlerActions acts s).2.trace = waitsConsistent s.trace :=
  ((runHandlerActions_obs acts s).2.2.2.2.2.1)

theorem slotMatch_runH (acts : List (HAction V)) (s : RunState V) :
    slotSetsMatchCreate (runHandlerActions acts s).2.trace = slotSetsMatchCreate s.trace :=
  ((runHandlerActions_obs acts s).2.2.2.2.2.2.1)

theorem firstSlot_execSends (ms : List Nat) (s : RunState V) :
    firstSlotSet (execSends ms s).trace = firstSlotSet s.trace :=
  ((execSends_obs ms s).2.2.2.2.2.1)

theorem firstCreated_execSends (ms : List Nat) (s : RunState V) :
    firstCreated (execSends ms s).trace = firstCreated s.trace :=
  ((execSends_obs ms s).2.2.2.2.2.2.1)

theorem waits_execSends (ms : List Nat) (s : RunState V) :
    waitsConsistent (execSends ms s).trace = waitsConsistent s.trace :=
  ((execSends_obs ms s).2.2.2.2.2.2.2.1)

theorem slotMatch_execSends (ms : List Nat) (s : RunState V) :
    slotSetsMatchCreate (execSends ms s).trace = slotSetsMatchCreate s.trace :=
  ((execSends_obs ms s).2.2.2.2.2.2.2.2.1)

theorem chatLoop_inv (env : ChatEnv V) : ∀ fuel turn s,
    waitsConsistent s.trace = true → slotSetsMatchCreate s.trace = true →
    waitsConsistent (chatLoop env fuel turn s).2.trace = true
    ∧ slotSetsMatchCreate (chatLoop env fuel turn s).2.trace = true := by
  intro fuel
  induction fuel with
  | zero => intro turn s hw hs; exact ⟨hw, hs⟩
  | succ k ih =>
    intro turn s hw hs
    rw [chatLoop]
    by_cases hach : s.achieved = true
    · simp only [hach, if_true]
      rw [chatFinish_snd]
      exact ⟨hw, hs⟩
    · have hach2 : s.achieved = false := by simpa using hach
      obtain ⟨b, j, hp⟩ :=
        durableRun_state "fetch_history" (fun _ => DVal.hist (env.histAt turn)) s
      simp only [hach2, Bool.false_eq_true, if_false, hp]
      split
      · constructor
        · rw [waits_runH]
          simp [waitsConsistent, hw]
        · rw [slotMatch_runH]
          simp [slotSetsMatchCreate, hs]
      · split
        · refine (ih (turn + 1) _ ?_ ?_)
          · simp [waitsConsistent, waits_runH, hw]
          · simp [slotSetsMatchCreate, slotMatch_runH, hs]
        · refine (ih (turn + 1) _ ?_ ?_)
          · simp [awaitPromise, setSlot, awakeable, waitsConsistent, firstSlotSet,
              firstCreated, waits_runH, hw]
          · simp [awaitPromise, setSlot, awakeable, slotSetsMatchCreate, firstCreated,
              slotMatch_runH, hs]

theorem workflowLoop_inv (env : WorkflowEnv V) (intr : Bool) : ∀ fuel iter s,
    waitsConsistent s.trace = true → slotSetsMatchCreate s.trace = true →
    waitsConsistent (workflowLoop env intr fuel iter s).2.trace = true
    ∧ slotSetsMatchCreate (workflowLoop env intr fuel iter s).2.trace = true := by
  intro fuel
  induction fuel with
  | zero => intro iter s hw hs; exact ⟨hw, hs⟩
  | succ k ih =>
    intro iter s hw hs
    obtain ⟨b, j, hp⟩ := durableRun_state "fetch_history"
      (fun _ => DVal.hist (env.histAt iter)) (setSlot (awakeable s).1 (awakeable s).2)
    simp only [workflowLoop, hp]
    split
    · refine ih (iter + 1) _ ?_ ?_
      · simp [awakeable, setSlot, waitsConsistent, firstSlotSet, firstCreated,
          firstSlot_execSends, firstCreated_execSends, waits_execSends, hw]
      · simp [awakeable, setSlot, slotSetsMatchCreate, firstCreated,
          slotMatch_execSends, hs]
    · split
      · constructor
        · simp [awakeable, setSlot, waitsConsistent, waits_execSends, hw]
        · simp [awakeable, setSlot, slotSetsMatchCreate, firstCreated,
            slotMatch_execSends, hs]
      · constructor
        · simp [awakeable, setSlot, waitsConsistent, waits_execSends, hw]
        · simp [awakeable, setSlot, slotSetsMatchCreate, firstCreated,
            slotMatch_execSends, hs]

/-- C6: in both the chat and workflow engines the persistent
`"new_input_promise"` slot always holds the id of the most recently created
awakeable: every overwrite of the slot stores exactly the id of the most
recently created awakeable, and at every wait point the stored id equals the
id of the awakeable being awaited (earlier ids are superseded). -/
theorem new_input_promise_latest (V : Type) (env : ChatEnv V) (wenv : WorkflowEnv V)
    (firstTurn : String) (fuel wfuel : Nat) (intr : Bool) :
    waitsConsistent (chat firstTurn env fuel).2.trace = true
    ∧ slotSetsMatchCreate (chat firstTurn env fuel).2.trace = true
    ∧ waitsConsistent (workflow intr wenv wfuel).2.trace = true
    ∧ slotSetsMatchCreate (workflow intr wenv wfuel).2.trace = true := by
  have hw := workflowLoop_inv wenv intr wfuel 0 ({} : RunState V) rfl rfl
  have hc : waitsConsistent (chat firstTurn env fuel).2.trace = true
      ∧ slotSetsMatchCreate (chat firstTurn env fuel).2.trace = true := by
    unfold chat
    cases hft : firstTurn == "user" with
    | true =>
      simp only [hft, if_true]
      refine chatLoop_inv env fuel 0 _ ?_ ?_ <;>
        simp [awaitPromise, setSlot, awakeable, waitsConsistent, slotSetsMatchCreate,
          firstSlotSet, firstCreated]
    | false =>
      simp only [hft, Bool.false_eq_true, if_false]
      refine chatLoop_inv env fuel 0 _ ?_ ?_ <;>
        simp [setSlot, awakeable, waitsConsistent, slotSetsMatchCreate,
          firstSlotSet, firstCreated]
  exact ⟨hc.1, hc.2, hw.1, hw.2⟩

theorem runH_handlerStart_mem (acts : List (HAction V)) (s : RunState V) (t : Nat)
    (h : List Nat) (hm : Event.handlerStart t h ∈ (runHandlerActions acts s).2.trace) :
    Event.handlerStart t h ∈ s.trace := by
  obtain ⟨tl, htl, hall⟩ := runHandlerActions_trace acts s
  rw [htl] at hm
  rcases List.mem_append.mp hm with h1 | h1
  · obtain ⟨b, hb⟩ := hall _ h1
    simp at hb
  · exact h1

theorem execSends_handlerStart_mem (ms : List Nat) (s : RunState V) (t : Nat)
    (h : List Nat) (hm : Event.handlerStart t h ∈ (execSends ms s).trace) :
    Event.handlerStart t h ∈ s.trace := by
  obtain ⟨tl, htl, hall⟩ := execSends_trace ms s
  rw [htl] at hm
  rcases List.mem_append.mp hm with h1 | h1
  · obtain ⟨b, hb⟩ := hall _ h1
    simp at hb
  · exact h1

theorem chatLoop_hist_stable (env : ChatEnv V) (H : List Nat) : ∀ fuel turn s,
    fetchVal s = some (DVal.hist H) ∨ (fetchVal s = none ∧ H = env.histAt turn) →
    ∀ t h, Event.handlerStart t h ∈ (chatLoop env fuel turn s).2.trace →
      Event.handlerStart t h ∈ s.trace ∨ h = H := by
  intro fuel
  induction fuel with
  | zero => intro turn s _ t h hm; exact Or.inl hm
  | succ k ih =>
    intro turn s hfv t h
    rw [chatLoop]
    by_cases hach : s.achieved = true
    · simp only [hach, if_true]
      rw [chatFinish_snd]
      exact Or.inl
    · have hach2 : s.achieved = false := by simpa using hach
      rcases hfv with hfv | ⟨hfv, rfl⟩
      · simp only [hach2, Bool.false_eq_true, if_false,
          durableRun_of_fetchVal_some s (DVal.hist H)
            (fun _ => DVal.hist (env.histAt turn)) hfv, DVal.asHist]
        split
        · intro hm
          rcases List.mem_cons.mp (runH_handlerStart_mem _ _ _ _ hm) with he | h3
          · obtain ⟨-, rfl⟩ : t = turn ∧ h = H := by simpa using he
            exact Or.inr rfl
          · rcases List.mem_cons.mp h3 with he2 | h4
            · simp at he2
            · exact Or.inl h4
        · split
          · intro hm
            refine (ih (turn + 1) _ ?_ t h hm).elim (fun h2 => ?_) (fun h2 => Or.inr h2)
            · exact Or.inl (((runHandlerActions_obs _ _).1).trans hfv)
            · rcases List.mem_cons.mp h2 with he | h3
              · simp at he
              · rcases List.mem_cons.mp (runH_handlerStart_mem _ _ _ _ h3) with he | h4
                · obtain ⟨-, rfl⟩ : t = turn ∧ h = H := by simpa using he
                  exact Or.inr rfl
                · rcases List.mem_cons.mp h4 with he2 | h5
                  · simp at he2
                  · exact Or.inl h5
          · intro hm
            refine (ih (turn + 1) _ ?_ t h hm).elim (fun h2 => ?_) (fun h2 => Or.inr h2)
            · exact Or.inl (((runHandlerActions_obs _ _).1).trans hfv)
            · simp only [awaitPromise, setSlot, awakeable] at h2
              rcases List.mem_cons.mp h2 with he | h3
              · simp at he
              · rcases List.mem_cons.mp h3 with he | h3
                · simp at he
                · rcases List.mem_cons.mp h3 with he | h3
                  · simp at he
                  · rcases List.mem_cons.mp h3 with he | h3
                    · simp at he
                    · rcases List.mem_cons.mp (runH_handlerStart_mem _ _ _ _ h3)
                          with he | h4
                      · obtain ⟨-, rfl⟩ : t = turn ∧ h = H := by simpa using he
                        exact Or.inr rfl
                      · rcases List.mem_cons.mp h4 with he2 | h5
                        · simp at he2
                        · exact Or.inl h5
      · simp only [hach2, Bool.false_eq_true, if_false,
          durableRun_of_fetchVal_none s
            (fun _ => DVal.hist (env.histAt turn)) hfv, DVal.asHist]
        split
        · intro hm
          rcases List.mem_cons.mp (runH_handlerStart_mem _ _ _ _ hm) with he | h3
          · obtain ⟨-, rfl⟩ : t = turn ∧ h = env.histAt turn := by simpa using he
            exact Or.inr rfl
          · rcases List.mem_cons.mp h3 with he2 | h4
            · simp at he2
            · exact Or.inl h4
        · split
          · intro hm
            refine (ih (turn + 1) _ ?_ t h hm).elim (fun h2 => ?_) (fun h2 => Or.inr h2)
            · exact Or.inl (((runHandlerActions_obs _ _).1).trans (fetchVal_record s (DVal.hist (env.histAt turn))
                (Event.handlerStart turn (env.histAt turn)
                  :: Event.runCall "fetch_history" true :: s.trace)))
            · rcases List.mem_cons.mp h2 with he | h3
              · simp at he
              · rcases List.mem_cons.mp (runH_handlerStart_mem _ _ _ _ h3) with he | h4
                · obtain ⟨-, rfl⟩ : t = turn ∧ h = env.histAt turn := by simpa using he
                  exact Or.inr rfl
                · rcases List.mem_cons.mp h4 with he2 | h5
                  · simp at he2
                  · exact Or.inl h5
          · intro hm
            refine (ih (turn + 1) _ ?_ t h hm).elim (fun h2 => ?_) (fun h2 => Or.inr h2)
            · exact Or.inl (((runHandlerActions_obs _ _).1).trans (fetchVal_record s (DVal.hist (env.histAt turn))
                (Event.handlerStart turn (env.histAt turn)
                  :: Event.runCall "fetch_history" true :: s.trace)))
            · simp only [awaitPromise, setSlot, awakeable] at h2
              rcases List.mem_cons.mp h2 with he | h3
              · simp at he
              · rcases List.mem_cons.mp h3 with he | h3
                · simp at he
                · rcases List.mem_cons.mp h3 with he | h3
                  · simp at he
                  · rcases List.mem_cons.mp h3 with he | h3
                    · simp at he
                    · rcases List.mem_cons.mp (runH_handlerStart_mem _ _ _ _ h3)
                          with he | h4
                      · obtain ⟨-, rfl⟩ : t = turn ∧ h = env.histAt turn := by
                          simpa using he
                        exact Or.inr rfl
                      · rcases List.mem_cons.mp h4 with he2 | h5
                        · simp at he2
                        · exact Or.inl h5

/-- C4 (amended): every turn of the chat pattern re-issues the
`fetch_history` durable call with the same constant key `"fetch_history"`, so
under the durable-call primitive that executes `fn` at most once per distinct
key within a run, every turn — not only the first — observes exactly the page
recorded by the first turn's fetch: turns after the first are fed the
memoized page and do not observe messages that arrived since. -/
theorem chat_history_memoized (V : Type) (env : ChatEnv V) (firstTurn : String)
    (fuel t : Nat) (h : List Nat)
    (hm : Event.handlerStart t h ∈ (chat firstTurn env fuel).2.trace) :
    h = env.histAt 0 := by
  unfold chat at hm
  split at hm
  · refine (chatLoop_hist_stable env (env.histAt 0) fuel 0 _ ?_ t h hm).elim
      (fun h2 => ?_) (fun h2 => h2)
    · exact Or.inr ⟨rfl, rfl⟩
    · simp [awaitPromise, setSlot, awakeable] at h2
  · refine (chatLoop_hist_stable env (env.histAt 0) fuel 0 _ ?_ t h hm).elim
      (fun h2 => ?_) (fun h2 => h2)
    · exact Or.inr ⟨rfl, rfl⟩
    · simp [setSlot, awakeable] at h2

/-- A chat environment where a new message (5) arrives between turn 0 and
turn 1. -/
def cenvC4 : ChatEnv Nat :=
  { histAt := fun t => if t = 0 then [] else [5]
    handler := fun t _ =>
      if t = 0 then [HAction.sendMessage 1] else [HAction.goalAchieved (some 0)] }

/-- C4 counterexample: in a run where message 5 arrives between turn 0 and
turn 1, turn 1 is invoked with the memoized empty page, not with the page
`[5]` the environment would return — the claim that each turn observes all
messages arrived since the previous turn fails on the code under the
at-most-once-per-key primitive. -/
theorem chat_history_memoized_cex :
    Event.handlerStart 1 [] ∈ (chat "agent" cenvC4 3).2.trace
    ∧ cenvC4.histAt 1 = [5]
    ∧ Event.handlerStart 1 [5] ∉ (chat "agent" cenvC4 3).2.trace := by
  refine ⟨by decide, by decide, by decide⟩

theorem chat_history_memoized_witness :
    Event.handlerStart 1 [] ∈ (chat "agent" cenvC4 3).2.trace
    ∧ ([] : List Nat) = cenvC4.histAt 0 :=
  ⟨by decide, chat_history_memoized Nat cenvC4 "agent" 3 1 [] (by decide)⟩

theorem chatLoop_result_state (env : ChatEnv V) : ∀ fuel turn s,
    (∀ v, (chatLoop env fuel turn s).1 = ChatResult.ok v →
        (chatLoop env fuel turn s).2.goalOutput = some v
        ∧ (chatLoop env fuel turn s).2.achieved = true)
    ∧ ((chatLoop env fuel turn s).1 = ChatResult.goalNotAchieved →
        (chatLoop env fuel turn s).2.goalOutput = none
        ∧ (chatLoop env fuel turn s).2.achieved = true) := by
  intro fuel
  induction fuel with
  | zero =>
    intro turn s
    exact ⟨fun v hv => by simp [chatLoop] at hv, fun hv => by simp [chatLoop] at hv⟩
  | succ k ih =>
    intro turn s
    rw [chatLoop]
    by_cases hach : s.achieved = true
    · simp only [hach, if_true]
      unfold chatFinish
      cases hgo : s.goalOutput with
      | none =>
        exact ⟨fun v hv => by simp at hv, fun _ => ⟨hgo, hach⟩⟩
      | some v0 =>
        refine ⟨fun v hv => ?_, fun hv => by simp at hv⟩
        obtain rfl : v0 = v := by simpa using hv
        exact ⟨hgo, hach⟩
    · have hach2 : s.achieved = false := by simpa using hach
      simp only [hach2, Bool.false_eq_true, if_false]
      split
      · exact ⟨fun v hv => by simp at hv, fun hv => by simp at hv⟩
      · split
        · exact ih (turn + 1) _
        · exact ih (turn + 1) _

theorem chatLoop_no_none_goal (env : ChatEnv V)
    (hg : ∀ t h o, o ∈ goalsOf (env.handler t h) → o ≠ none) : ∀ fuel turn s,
    (s.achieved = true → s.goalOutput ≠ none) →
    (chatLoop env fuel turn s).1 ≠ ChatResult.goalNotAchieved := by
  intro fuel
  induction fuel with
  | zero => intro turn s _; simp [chatLoop]
  | succ k ih =>
    intro turn s hinv
    rw [chatLoop]
    by_cases hach : s.achieved = true
    · simp only [hach, if_true]
      unfold chatFinish
      cases hgo : s.goalOutput with
      | none => exact absurd hgo (hinv hach)
      | some v0 => simp
    · have hach2 : s.achieved = false := by simpa using hach
      simp only [hach2, Bool.false_eq_true, if_false]
      split
      · simp
      · split
        · refine ih (turn + 1) _ ?_
          intro ha
          simp only at ha ⊢
          rw [(runHandlerActions_final _ _).1]
          rw [(runHandlerActions_final _ _).2.1] at ha
          exact finalGoal_ne_none _ _ _ (hg turn _)
            (by simp [durableRun_achieved, durableRun_goalOutput, hach2]) ha
        · refine ih (turn + 1) _ ?_
          intro ha
          simp only [awaitPromise, setSlot, awakeable] at ha ⊢
          rw [(runHandlerActions_final _ _).1]
          rw [(runHandlerActions_final _ _).2.1] at ha
          exact finalGoal_ne_none _ _ _ (hg turn _)
            (by simp [durableRun_achieved, durableRun_goalOutput, hach2]) ha

/-- C7 (amended): when the chat pattern returns a value it is exactly the
recorded goal output, and the fatal `RuntimeError("Goal not achieved")` is
raised exactly when the `goal_output` slot is `None` at loop exit.  Provided
every `on_goal_achieved` invocation passes a non-`None` output, the fatal
branch is unreachable; it is reachable when the last recorded output is
Python `None`, because the engine cannot distinguish a recorded `None` output
from no recorded output. -/
theorem chat_goal_outcome (V : Type) (env : ChatEnv V) (firstTurn : String) (fuel : Nat) :
    (∀ v, (chat firstTurn env fuel).1 = ChatResult.ok v →
        (chat firstTurn env fuel).2.goalOutput = some v
        ∧ (chat firstTurn env fuel).2.achieved = true)
    ∧ ((chat firstTurn env fuel).1 = ChatResult.goalNotAchieved →
        (chat firstTurn env fuel).2.goalOutput = none
        ∧ (chat firstTurn env fuel).2.achieved = true)
    ∧ ((∀ t h o, o ∈ goalsOf (env.handler t h) → o ≠ none) →
        (chat firstTurn env fuel).1 ≠ ChatResult.goalNotAchieved) := by
  unfold chat
  split
  · exact ⟨(chatLoop_result_state env fuel 0 _).1, (chatLoop_result_state env fuel 0 _).2,
      fun hg => chatLoop_no_none_goal env hg fuel 0 _ (by simp [awaitPromise, setSlot, awakeable])⟩
  · exact ⟨(chatLoop_result_state env fuel 0 _).1, (chatLoop_result_state env fuel 0 _).2,
      fun hg => chatLoop_no_none_goal env hg fuel 0 _ (by simp [setSlot, awakeable])⟩

/-- A chat environment whose handler invokes `on_goal_achieved(None)` on its
first invocation. -/
def cenvC7 : ChatEnv Nat :=
  { histAt := fun _ => [], handler := fun _ _ => [HAction.goalAchieved none] }

/-- C7 counterexample: a handler that invokes `on_goal_achieved` (once,
before the terminal state, with output `None`) still makes the pattern fail
with the fatal `RuntimeError("Goal not achieved")`: the error branch is
reachable even though the state machine was followed and an output was
recorded. -/
theorem chat_goal_outcome_cex :
    cenvC7.handler 0 [] = [HAction.goalAchieved none]
    ∧ (chat "agent" cenvC7 2).1 = ChatResult.goalNotAchieved
    ∧ countHandlerStarts (chat "agent" cenvC7 2).2.trace = 1 := by
  refine ⟨rfl, by decide, by decide⟩

/-- A chat environment whose handler achieves goal 5 on every invocation. -/
def cenvC7w : ChatEnv Nat :=
  { histAt := fun _ => [], handler := fun _ _ => [HAction.goalAchieved (some 5)] }

theorem chat_goal_outcome_witness :
    (chat "agent" cenvC7w 2).1 ≠ ChatResult.goalNotAchieved
    ∧ (chat "agent" cenvC7w 2).1 = ChatResult.ok 5 :=
  ⟨(chat_goal_outcome Nat cenvC7w "agent" 2).2.2
      (fun t h o ho => by simp [cenvC7w, goalsOf] at ho; subst ho; simp),
    by decide⟩

theorem execSends_suffix (ms : List Nat) (s : RunState V) :
    s.trace <:+ (execSends ms s).trace := by
  obtain ⟨tl, h, _⟩ := execSends_trace ms s
  exact ⟨tl, h.symm⟩

theorem workflowLoop_suffix (env : WorkflowEnv V) (intr : Bool) : ∀ fuel iter s,
    s.trace <:+ (workflowLoop env intr fuel iter s).2.trace := by
  intro fuel
  induction fuel with
  | zero => intro iter s; exact List.suffix_refl _
  | succ k ih =>
    intro iter s
    obtain ⟨b, j, hp⟩ := durableRun_state "fetch_history"
      (fun _ => DVal.hist (env.histAt iter)) (setSlot (awakeable s).1 (awakeable s).2)
    simp only [workflowLoop, hp]
    split
    · refine List.IsSuffix.trans ?_ (ih (iter + 1) _)
      simp only [awaitPromise, setSlot, awakeable]
      refine List.IsSuffix.trans (List.IsSuffix.trans ?_ (execSends_suffix _ _))
        ((List.suffix_cons _ _).trans (List.suffix_cons _ _))
      exact (((List.suffix_cons _ _).trans (List.suffix_cons _ _)).trans
        (List.suffix_cons _ _)).trans (List.suffix_cons _ _)
    · split <;>
      · simp only [setSlot, awakeable]
        refine List.IsSuffix.trans (List.IsSuffix.trans ?_ (execSends_suffix _ _))
          (List.suffix_cons _ _)
        exact (((List.suffix_cons _ _).trans (List.suffix_cons _ _)).trans
          (List.suffix_cons _ _)).trans (List.suffix_cons _ _)

theorem execSends_nextAwk (ms : List Nat) (s : RunState V) :
    (execSends ms s).nextAwk = s.nextAwk :=
  ((execSends_obs ms s).2.2.1)

theorem execSends_find_fetch (ms : List Nat) : ∀ s : RunState V,
    (execSends ms s).journal.find? (fun kv => kv.fst == "fetch_history")
      = s.journal.find? (fun kv => kv.fst == "fetch_history") := by
  induction ms with
  | nil => intro s; rfl
  | cons m rest ih =>
    intro s
    obtain ⟨b, j, hs, hf⟩ := sendMessageCall_state m s
    rw [show execSends (m :: rest) s = execSends rest (sendMessageCall m s) from rfl,
      ih (sendMessageCall m s), hs]
    exact hf

theorem workflowLoop_ok_src (env : WorkflowEnv V) (H : List Nat) : ∀ fuel iter s v,
    fetchVal s = some (DVal.hist H) ∨ (fetchVal s = none ∧ H = env.histAt iter) →
    s.nextAwk = iter →
    (workflowLoop env true fuel iter s).1 = WResult.ok v →
    ∃ i, iter ≤ i ∧ i < iter + fuel
      ∧ (∀ j, iter ≤ j → j < i → env.inputWins j = true)
      ∧ env.inputWins i = false
      ∧ (env.handler i H).outcome = Except.ok v
      ∧ Event.handlerCompleted i ∈ (workflowLoop env true fuel iter s).2.trace
      ∧ (∀ j, iter ≤ j → j < i →
          Event.handlerCancelled j ∈ (workflowLoop env true fuel iter s).2.trace)
      ∧ (∀ j, iter ≤ j → j ≤ i →
          Event.awakeableCreated j ∈ (workflowLoop env true fuel iter s).2.trace) := by
  intro fuel
  induction fuel with
  | zero => intro iter s v _ _ hok; simp [workflowLoop] at hok
  | succ k ih =>
    intro iter s v hfv hnext hok
    rcases hfv with hfv | ⟨hfv, rfl⟩
    · have hp := durableRun_of_fetchVal_some (setSlot (awakeable s).1 (awakeable s).2)
        (DVal.hist H) (fun _ => DVal.hist (env.histAt iter)) hfv
      simp only [workflowLoop, hp, DVal.asHist, Bool.true_and] at hok ⊢
      by_cases hw : env.inputWins iter = true
      · simp only [hw, if_true] at hok ⊢
        obtain ⟨i, hi1, hi2, hjw, hiw, hout, hcomp, hcanc, hcre⟩ :=
          ih (iter + 1) _ v
            (Or.inl (by
              simp only [fetchVal, awaitPromise, setSlot, awakeable, execSends_find_fetch]
              have h2 := hfv
              simp only [fetchVal] at h2
              exact h2))
            (by simp only [awaitPromise, setSlot, awakeable, execSends_nextAwk]; omega) hok
        refine ⟨i, by omega, by omega, ?_, hiw, hout, hcomp, ?_, ?_⟩
        · intro j hj1 hj2
          rcases Nat.eq_or_lt_of_le hj1 with rfl | hj3
          · exact hw
          · exact hjw j (by omega) hj2
        · intro j hj1 hj2
          rcases Nat.eq_or_lt_of_le hj1 with rfl | hj3
          · refine (workflowLoop_suffix env true k (iter + 1) _).subset ?_
            simp [awaitPromise, setSlot, awakeable]
          · exact hcanc j (by omega) hj2
        · intro j hj1 hj2
          rcases Nat.eq_or_lt_of_le hj1 with rfl | hj3
          · refine (workflowLoop_suffix env true k (iter + 1) _).subset ?_
            simp only [awaitPromise, setSlot, awakeable]
            refine List.mem_cons_of_mem _ (List.mem_cons_of_mem _ ?_)
            refine (execSends_suffix _ _).subset ?_
            simp [hnext]
          · exact hcre j (by omega) hj2
      · have hw2 : env.inputWins iter = false := by simpa using hw
        simp only [hw2, Bool.false_eq_true, if_false] at hok ⊢
        cases ho : (env.handler iter H).outcome with
        | ok v0 =>
          simp only [ho] at hok ⊢
          obtain rfl : v0 = v := by simpa using hok
          refine ⟨iter, le_refl _, by omega, fun j hj1 hj2 => absurd hj1 (by omega),
            hw2, ho, ?_, fun j hj1 hj2 => absurd hj1 (by omega), ?_⟩
          · simp [setSlot, awakeable]
          · intro j hj1 hj2
            obtain rfl : j = iter := by omega
            simp only [setSlot, awakeable]
            refine List.mem_cons_of_mem _ ?_
            refine (execSends_suffix _ _).subset ?_
            simp [hnext]
        | error e => simp [ho] at hok
    · have hp := durableRun_of_fetchVal_none (setSlot (awakeable s).1 (awakeable s).2)
        (fun _ => DVal.hist (env.histAt iter)) hfv
      simp only [workflowLoop, hp, DVal.asHist, Bool.true_and] at hok ⊢
      by_cases hw : env.inputWins iter = true
      · simp only [hw, if_true] at hok ⊢
        obtain ⟨i, hi1, hi2, hjw, hiw, hout, hcomp, hcanc, hcre⟩ :=
          ih (iter + 1) _ v
            (Or.inl (by
              simp [fetchVal, awaitPromise, setSlot, awakeable, execSends_find_fetch,
                List.find?]))
            (by simp only [awaitPromise, setSlot, awakeable, execSends_nextAwk]; omega) hok
        refine ⟨i, by omega, by omega, ?_, hiw, hout, hcomp, ?_, ?_⟩
        · intro j hj1 hj2
          rcases Nat.eq_or_lt_of_le hj1 with rfl | hj3
          · exact hw
          · exact hjw j (by omega) hj2
        · intro j hj1 hj2
          rcases Nat.eq_or_lt_of_le hj1 with rfl | hj3
          · refine (workflowLoop_suffix env true k (iter + 1) _).subset ?_
            simp [awaitPromise, setSlot, awakeable]
          · exact hcanc j (by omega) hj2
        · intro j hj1 hj2
          rcases Nat.eq_or_lt_of_le hj1 with rfl | hj3
          · refine (workflowLoop_suffix env true k (iter + 1) _).subset ?_
            simp only [awaitPromise, setSlot, awakeable]
            refine List.mem_cons_of_mem _ (List.mem_cons_of_mem _ ?_)
            refine (execSends_suffix _ _).subset ?_
            simp [hnext]
          · exact hcre j (by omega) hj2
      · have hw2 : env.inputWins iter = false := by simpa using hw
        simp only [hw2, Bool.false_eq_true, if_false] at hok ⊢
        cases ho : (env.handler iter (env.histAt iter)).outcome with
        | ok v0 =>
          simp only [ho] at hok ⊢
          obtain rfl : v0 = v := by simpa using hok
          refine ⟨iter, le_refl _, by omega, fun j hj1 hj2 => absurd hj1 (by omega),
            hw2, ho, ?_, fun j hj1 hj2 => absurd hj1 (by omega), ?_⟩
          · simp [setSlot, awakeable]
          · intro j hj1 hj2
            obtain rfl : j = iter := by omega
            simp only [setSlot, awakeable]
            refine List.mem_cons_of_mem _ ?_
            refine (execSends_suffix _ _).subset ?_
            simp [hnext]
        | error e => simp [ho] at hok

/-- C2 (amended): with `interruptable = true`, whenever the new-input
awakeable of an iteration resolves before the handler completes, that
iteration's handler invocation is cancelled and discarded and the loop
restarts with a fresh awakeable and a re-issued `fetch_history` durable call
(which, under the at-most-once-per-key primitive, returns the page recorded
by the first iteration rather than one including the new input); the value
the pattern eventually returns always comes from the first handler invocation
that ran to completion without being interrupted, never from a cancelled
one. -/
theorem workflow_interrupt_result (V : Type) (env : WorkflowEnv V) (fuel : Nat) (v : V)
    (hok : (workflow true env fuel).1 = WResult.ok v) :
    ∃ i, i < fuel
      ∧ (∀ j, j < i → env.inputWins j = true)
      ∧ env.inputWins i = false
      ∧ (env.handler i (env.histAt 0)).outcome = Except.ok v
      ∧ Event.handlerCompleted i ∈ (workflow true env fuel).2.trace
      ∧ (∀ j, j < i → Event.handlerCancelled j ∈ (workflow true env fuel).2.trace)
      ∧ (∀ j, j ≤ i → Event.awakeableCreated j ∈ (workflow true env fuel).2.trace) := by
  obtain ⟨i, _, hi2, hjw, hiw, hout, hcomp, hcanc, hcre⟩ :=
    workflowLoop_ok_src env (env.histAt 0) fuel 0 ({} : RunState V) v
      (Or.inr ⟨rfl, rfl⟩) rfl hok
  exact ⟨i, by omega, fun j hj => hjw j (Nat.zero_le j) hj, hiw, hout, hcomp,
    fun j hj => hcanc j (Nat.zero_le j) hj, fun j hj => hcre j (Nat.zero_le j) hj⟩

/-- An interruptable workflow environment: new input (message 7) arrives and
wins the race during iteration 0; the restarted handler returns
`100 + length of the history page it observed`. -/
def wenvC2 : WorkflowEnv Nat :=
  { histAt := fun t => if t = 0 then [] else [7]
    handler := fun i h => { sends := [i], outcome := Except.ok (100 + h.length) }
    inputWins := fun i => i == 0
    progress := fun _ => 1 }

/-- C2 counterexample: iteration 0 is interrupted and cancelled, the loop
restarts — but the restarted invocation observes the memoized empty page, not
the re-fetched page `[7]` containing the new input, and the pattern returns
100 (handler of the empty page) instead of 101 (handler of `[7]`): the
"re-fetching history (now including the new input)" part of the claim fails
on the code under the at-most-once-per-key primitive. -/
theorem workflow_interrupt_result_cex :
    Event.handlerCancelled 0 ∈ (workflow true wenvC2 2).2.trace
    ∧ Event.handlerStart 1 [] ∈ (workflow true wenvC2 2).2.trace
    ∧ wenvC2.histAt 1 = [7]
    ∧ Event.handlerStart 1 [7] ∉ (workflow true wenvC2 2).2.trace
    ∧ (workflow true wenvC2 2).1 = WResult.ok 100
    ∧ (wenvC2.handler 1 (wenvC2.histAt 1)).outcome = Except.ok 101 := by
  refine ⟨by decide, by decide, by decide, by decide, by decide, rfl⟩

theorem workflow_interrupt_result_witness :
    ∃ i, i < 2
      ∧ (∀ j, j < i → wenvC2.inputWins j = true)
      ∧ wenvC2.inputWins i = false
      ∧ (wenvC2.handler i (wenvC2.histAt 0)).outcome = Except.ok 100
      ∧ Event.handlerCompleted i ∈ (workflow true wenvC2 2).2.trace
      ∧ (∀ j, j < i → Event.handlerCancelled j ∈ (workflow true wenvC2 2).2.trace)
      ∧ (∀ j, j ≤ i → Event.awakeableCreated j ∈ (workflow true wenvC2 2).2.trace) :=
  workflow_interrupt_result Nat wenvC2 2 100 (by decide)

end Soma
